import Mathlib

/-
Shallow embedding of the gocql two-level connection pool
(policyConnPool / hostConnPool) found in the repository source.

Modelling conventions:
- A Conn (a Go *Conn pointer) is a natural-number identifier; Go pointer
  equality becomes Nat equality.
- The Go code is concurrent but every mutation of a hostConnPool's
  conns / closed / filling fields happens under the pool's mutex, so the
  embedding serialises each operation into a pure state-transforming
  function.  Asynchronous side effects (go pool.fill(), go pool.drain(),
  go session.handleNodeDown(...)) are recorded as boolean effect flags in
  the operation's result instead of being run.
- Network I/O (session.connect plus the optional UseKeyspace step) is
  abstracted by a dial environment: an Option Conn per dial attempt,
  where none models a failed dial (or failed keyspace setup) and some c
  models a successfully established connection c.
- The external ConnSelectionPolicy instance owned by a hostConnPool is
  modelled by its published working set: policyConns stores the argument
  of the last SetConns call (none models SetConns(nil) / never called).
  The value the policy returns from Pick is an input parameter, since the
  policy implementation is outside this repository's core.
-/

namespace Gocql

/-- A connection identifier standing for a Go *Conn pointer. -/
abbrev Conn := Nat

/-- State of a hostConnPool: the fields protected by its mutex, plus the
working set last published to its ConnSelectionPolicy via SetConns. -/
structure HostConnPool where
  size : Nat
  conns : List Conn
  closed : Bool
  filling : Bool
  policyConns : Option (List Conn)
deriving DecidableEq

/-- The connect method: dial the host (the dial environment already folds
in the UseKeyspace step); on success append the connection under the lock
and publish a copied snapshot to the ConnSelectionPolicy, unless the pool
was closed while dialing, in which case the connection is discarded.
Returns the new pool state and whether an error was returned. -/
def connect (pool : HostConnPool) (dial : Option Conn) : HostConnPool × Bool :=
  match dial with
  | none => (pool, true)
  | some conn =>
    if pool.closed then
      (pool, false)
    else
      let conns := pool.conns ++ [conn]
      ({ pool with conns := conns, policyConns := some conns }, false)

/-- The connectMany method: count further connect calls, drawing dial
outcomes from the environment starting at index start.  The Go code runs
them concurrently; the appends serialise under the pool lock, modelled
here in index order. -/
def connectMany (pool : HostConnPool) (dials : Nat → Option Conn) (start : Nat) : Nat → HostConnPool
  | 0 => pool
  | Nat.succ k => connectMany (connect pool (dials start)).1 dials (start + 1) k

/-- The fillingStopped method: clear the filling flag (the jittered sleep
before clearing it has no effect on the state and is omitted). -/
def fillingStopped (pool : HostConnPool) : HostConnPool :=
  { pool with filling := false }

/-- Result of a fill call: the new pool state, the number of connect
calls performed (observational bookkeeping), and whether the asynchronous
go session.handleNodeDown notification was issued. -/
structure FillResult where
  pool : HostConnPool
  attempts : Nat
  markHostDown : Bool
deriving DecidableEq

/-- The fill method.  The read-lock fast path and the re-check after the
lock upgrade read the same serialised state, so they collapse into one
test here.  With zero current connections the first connection is dialed
synchronously (dial index 0); on failure fill stops after that single
attempt and signals markHostDown; on success the remaining fillCount - 1
connections are connected via connectMany.  With at least one current
connection all fillCount connections are connected via connectMany (the
Go code does this in a spawned goroutine). -/
def fill (pool : HostConnPool) (dials : Nat → Option Conn) : FillResult :=
  if pool.closed || pool.filling then
    ⟨pool, 0, false⟩
  else
    let startCount := pool.conns.length
    if pool.size ≤ startCount then
      ⟨pool, 0, false⟩
    else
      let fillCount := pool.size - startCount
      let pool1 := { pool with filling := true }
      if startCount = 0 then
        let r := connect pool1 (dials 0)
        if r.2 then
          ⟨fillingStopped r.1, 1, true⟩
        else
          ⟨fillingStopped (connectMany r.1 dials 1 (fillCount - 1)), 1 + (fillCount - 1), false⟩
      else
        ⟨fillingStopped (connectMany pool1 dials 0 fillCount), fillCount, false⟩

/-- The newHostConnPool constructor: build the empty pool and run the
initial fill before returning (markHostDown and attempt count of that
initial fill are reported in the FillResult). -/
def newHostConnPool (size : Nat) (dials : Nat → Option Conn) : FillResult :=
  fill { size := size, conns := [], closed := false, filling := false, policyConns := none } dials

/-- The hostConnPool.Pick method.  policyResult is the connection the
external ConnSelectionPolicy would return from its Pick.  The second
component records whether go pool.fill() was scheduled. -/
def HostConnPool.Pick (pool : HostConnPool) (policyResult : Option Conn) : Option Conn × Bool :=
  if pool.closed then
    (none, false)
  else if pool.conns.length < pool.size then
    if pool.conns.length = 0 then (none, true) else (policyResult, true)
  else
    (policyResult, false)

/-- The hostConnPool.Size method. -/
def HostConnPool.Size (pool : HostConnPool) : Nat :=
  pool.conns.length

/-- The hostConnPool.Close method; the second component records whether
go pool.drain() was scheduled. -/
def HostConnPool.Close (pool : HostConnPool) : HostConnPool × Bool :=
  if pool.closed then
    (pool, false)
  else
    ({ pool with closed := true }, true)

/-- Index of the first occurrence of conn in the conns slice, mirroring
the search loop in HandleError. -/
def findConnIdx (conns : List Conn) (conn : Conn) : Option Nat :=
  match conns with
  | [] => none
  | c :: rest => if c == conn then some 0 else (findConnIdx rest conn).map (· + 1)

/-- The swap-with-last removal used by HandleError:
conns[i] = conns[len-1]; conns = conns[:len-1]. -/
def swapRemoveAt (l : List Conn) (i : Nat) : List Conn :=
  (l.set i (l.getLast?.getD 0)).dropLast

/-- The hostConnPool.HandleError method.  connClosed is the closed
argument reported by the connection.  On removal the copied snapshot of
the remaining connections is published to the policy.  The second
component records whether go pool.fill() was scheduled. -/
def HostConnPool.HandleError (pool : HostConnPool) (conn : Conn) (connClosed : Bool) :
    HostConnPool × Bool :=
  if !connClosed then
    (pool, false)
  else if pool.closed then
    (pool, false)
  else
    match findConnIdx pool.conns conn with
    | none => (pool, false)
    | some i =>
      let conns := swapRemoveAt pool.conns i
      ({ pool with conns := conns, policyConns := some conns }, true)

/-- The hostConnPool.drain method: detach the whole connection
collection under the lock, publish SetConns(nil) to the policy, then
close each detached connection; the second component is the list of
connections that get closed. -/
def HostConnPool.drain (pool : HostConnPool) : HostConnPool × List Conn :=
  ({ pool with conns := [], policyConns := none }, pool.conns)

/-- Identity of a cluster node as seen through the HostInfo accessors
Peer, Port and IsUp. -/
structure HostInfo where
  peer : String
  port : Nat
  up : Bool
deriving DecidableEq

/-- A SelectedHost yielded by the HostSelectionPolicy iterator; its Info
accessor may return nil. -/
structure SelectedHost where
  info : Option HostInfo
deriving DecidableEq

/-- State of a policyConnPool: the shared configuration, the
host-address to hostConnPool map (a key-distinct association list models
the Go map), and the host list last handed to the HostSelectionPolicy. -/
structure PolicyConnPool where
  port : Nat
  numConns : Nat
  hostConnPools : List (String × HostConnPool)
  policyHosts : List HostInfo
deriving DecidableEq

/-- Go map read m[a]. -/
def mapLookup (m : List (String × HostConnPool)) (a : String) : Option HostConnPool :=
  match m with
  | [] => none
  | e :: rest => if e.1 == a then some e.2 else mapLookup rest a

/-- Go map deletion delete(m, a). -/
def mapErase (m : List (String × HostConnPool)) (a : String) : List (String × HostConnPool) :=
  match m with
  | [] => []
  | e :: rest => if e.1 == a then mapErase rest a else e :: mapErase rest a

/-- Go map write m[a] = pool. -/
def mapSet (m : List (String × HostConnPool)) (a : String) (pool : HostConnPool) :
    List (String × HostConnPool) :=
  (a, pool) :: mapErase m a

/-- Result of policyConnPool.SetHosts: the new pool state and the
addresses whose hostConnPools had Close called on them. -/
structure SetHostsResult where
  pool : PolicyConnPool
  closedAddrs : List String
deriving DecidableEq

/-- The fan-in registration step of SetHosts: a created pool is added to
the map only when it holds at least one connection (pool.Size() > 0). -/
def registerPool (m : List (String × HostConnPool)) (e : String × HostConnPool) :
    List (String × HostConnPool) :=
  if 0 < e.2.conns.length then mapSet m e.1 e.2 else m

/-- The policyConnPool.SetHosts method.  The per-peer dial environment
feeds the newHostConnPool constructions (run concurrently in Go and
fanned in; creation is deterministic in the environment, so the fan-in
order does not matter and registrations are modelled in host-list
order).  An address stays in toRemove exactly when no up host in the new
list carries it; a new pool is created exactly for up hosts that are not
yet tracked; a created pool is registered only when Size() > 0.  Removed
addresses are evicted and their pools closed, then the host policy
receives the full new host list. -/
def PolicyConnPool.SetHosts (p : PolicyConnPool) (hosts : List HostInfo)
    (dials : String → Nat → Option Conn) : SetHostsResult :=
  let removeAddrs :=
    (p.hostConnPools.map Prod.fst).filter
      (fun a => !(hosts.any (fun h => h.up && h.peer == a)))
  let created :=
    (hosts.filter (fun h => h.up && (mapLookup p.hostConnPools h.peer).isNone)).map
      (fun h => (h.peer, (newHostConnPool p.numConns (dials h.peer)).pool))
  let m1 := created.foldl registerPool p.hostConnPools
  let m2 := removeAddrs.foldl mapErase m1
  ⟨{ p with hostConnPools := m2, policyHosts := hosts }, removeAddrs⟩

/-- The policyConnPool.Size method: sum of the per-host pool sizes. -/
def PolicyConnPool.Size (p : PolicyConnPool) : Nat :=
  (p.hostConnPools.map (fun e => e.2.Size)).sum

/-- Result of policyConnPool.addHost: the new pool state, whether
go pool.fill() was scheduled on an already tracked pool, and whether the
newly constructed pool signalled markHostDown during its initial fill. -/
structure AddHostResult where
  pool : PolicyConnPool
  fillScheduled : Bool
  markHostDown : Bool
deriving DecidableEq

/-- The policyConnPool.addHost method: on an already tracked peer just
schedule go pool.fill(); otherwise construct a new hostConnPool,
register it unconditionally and hand the host to the host policy
(AddHost, modelled as appending to policyHosts).  The host's own port is
used for the construction; the port does not influence the connection
state, so it is not a parameter of newHostConnPool here. -/
def PolicyConnPool.addHost (p : PolicyConnPool) (host : HostInfo)
    (dials : Nat → Option Conn) : AddHostResult :=
  match mapLookup p.hostConnPools host.peer with
  | some _ => ⟨p, true, false⟩
  | none =>
    let r := newHostConnPool p.numConns dials
    ⟨{ p with
        hostConnPools := mapSet p.hostConnPools host.peer r.pool,
        policyHosts := p.policyHosts ++ [host] },
      false, r.markHostDown⟩

/-- The policyConnPool.hostUp method: delegates to addHost. -/
def PolicyConnPool.hostUp (p : PolicyConnPool) (host : HostInfo)
    (dials : Nat → Option Conn) : AddHostResult :=
  p.addHost host dials

/-- The policyConnPool.Pick method over the list of hosts the
HostSelectionPolicy iterator yields before exhaustion.  connPick gives,
per peer address, the connection that host's ConnSelectionPolicy would
return.  The outer none models the panic on a yielded host whose Info is
nil; some (host, conn) is the Go return value, where an exhausted
iterator yields some (none, none). -/
def PolicyConnPool.Pick (p : PolicyConnPool) (connPick : String → Option Conn) :
    List SelectedHost → Option (Option SelectedHost × Option Conn)
  | [] => some (none, none)
  | h :: rest =>
    match h.info with
    | none => none
    | some info =>
      match mapLookup p.hostConnPools info.peer with
      | none => PolicyConnPool.Pick p connPick rest
      | some pool =>
        match (pool.Pick (connPick info.peer)).1 with
        | none => PolicyConnPool.Pick p connPick rest
        | some conn => some (some h, some conn)

/-- The connection a single yielded host contributes in
policyConnPool.Pick: nil when the host has no Info, no tracked pool, or
its pool's Pick yields nil. -/
def hostYield (p : PolicyConnPool) (connPick : String → Option Conn)
    (h : SelectedHost) : Option Conn :=
  match h.info with
  | none => none
  | some info =>
    match mapLookup p.hostConnPools info.peer with
    | none => none
    | some pool => (pool.Pick (connPick info.peer)).1

/-- Modelled from the spec: Pick stops at the first host in iterator
order that yields a non-nil connection and returns (nil, nil) when the
iterator is exhausted without success. -/
def pickFirstSpec (p : PolicyConnPool) (connPick : String → Option Conn)
    (iter : List SelectedHost) : Option SelectedHost × Option Conn :=
  match iter.find? (fun h => (hostYield p connPick h).isSome) with
  | some h => (some h, hostYield p connPick h)
  | none => (none, none)

/-
Helper lemmas about the hostConnPool operations.
-/

lemma connect_size (pool : HostConnPool) (d : Option Conn) :
    (connect pool d).1.size = pool.size := by
  cases d with
  | none => rfl
  | some c =>
    by_cases h : pool.closed <;> simp [connect, h]

lemma connect_closed (pool : HostConnPool) (d : Option Conn) :
    (connect pool d).1.closed = pool.closed := by
  cases d with
  | none => rfl
  | some c =>
    by_cases h : pool.closed <;> simp [connect, h]

lemma connect_filling (pool : HostConnPool) (d : Option Conn) :
    (connect pool d).1.filling = pool.filling := by
  cases d with
  | none => rfl
  | some c =>
    by_cases h : pool.closed <;> simp [connect, h]

lemma connect_conns_append (pool : HostConnPool) (d : Option Conn) :
    ∃ l, (connect pool d).1.conns = pool.conns ++ l ∧ l.length ≤ 1 := by
  cases d with
  | none => exact ⟨[], by simp [connect]⟩
  | some c =>
    by_cases h : pool.closed
    · exact ⟨[], by simp [connect, h]⟩
    · exact ⟨[c], by simp [connect, h]⟩

lemma connect_length_le (pool : HostConnPool) (d : Option Conn) :
    (connect pool d).1.conns.length ≤ pool.conns.length + 1 := by
  obtain ⟨l, hl, hlen⟩ := connect_conns_append pool d
  rw [hl]
  simp only [List.length_append]
  omega

lemma connect_of_closed (pool : HostConnPool) (d : Option Conn)
    (h : pool.closed = true) : (connect pool d).1 = pool := by
  cases d with
  | none => rfl
  | some c => simp [connect, h]

lemma connectMany_size (dials : Nat → Option Conn) :
    ∀ (count : Nat) (pool : HostConnPool) (start : Nat),
      (connectMany pool dials start count).size = pool.size := by
  intro count
  induction count with
  | zero => intro pool start; rfl
  | succ k ih =>
    intro pool start
    rw [connectMany, ih, connect_size]

lemma connectMany_closed (dials : Nat → Option Conn) :
    ∀ (count : Nat) (pool : HostConnPool) (start : Nat),
      (connectMany pool dials start count).closed = pool.closed := by
  intro count
  induction count with
  | zero => intro pool start; rfl
  | succ k ih =>
    intro pool start
    rw [connectMany, ih, connect_closed]

lemma connectMany_filling (dials : Nat → Option Conn) :
    ∀ (count : Nat) (pool : HostConnPool) (start : Nat),
      (connectMany pool dials start count).filling = pool.filling := by
  intro count
  induction count with
  | zero => intro pool start; rfl
  | succ k ih =>
    intro pool start
    rw [connectMany, ih, connect_filling]

lemma connectMany_conns_append (dials : Nat → Option Conn) :
    ∀ (count : Nat) (pool : HostConnPool) (start : Nat),
      ∃ l, (connectMany pool dials start count).conns = pool.conns ++ l ∧
        l.length ≤ count := by
  intro count
  induction count with
  | zero => intro pool start; exact ⟨[], by simp [connectMany]⟩
  | succ k ih =>
    intro pool start
    obtain ⟨l1, hl1, hlen1⟩ := connect_conns_append pool (dials start)
    obtain ⟨l2, hl2, hlen2⟩ := ih (connect pool (dials start)).1 (start + 1)
    refine ⟨l1 ++ l2, ?_, ?_⟩
    · rw [connectMany, hl2, hl1, List.append_assoc]
    · simp only [List.length_append]; omega

lemma connectMany_length_le (dials : Nat → Option Conn) (count : Nat)
    (pool : HostConnPool) (start : Nat) :
    (connectMany pool dials start count).conns.length ≤ pool.conns.length + count := by
  obtain ⟨l, hl, hlen⟩ := connectMany_conns_append dials count pool start
  rw [hl]
  simp only [List.length_append]
  omega

lemma eta_of_filling_false (pool : HostConnPool) (hf : pool.filling = false) :
    { pool with filling := false } = pool := by
  cases pool
  simp_all

lemma fill_of_guard (pool : HostConnPool) (dials : Nat → Option Conn)
    (h : pool.closed = true ∨ pool.filling = true) :
    fill pool dials = ⟨pool, 0, false⟩ := by
  have hor : (pool.closed || pool.filling) = true := by
    rcases h with h | h <;> simp [h]
  simp [fill, hor]

lemma fill_of_closed (pool : HostConnPool) (dials : Nat → Option Conn)
    (h : pool.closed = true) : fill pool dials = ⟨pool, 0, false⟩ :=
  fill_of_guard pool dials (Or.inl h)

lemma fill_of_full (pool : HostConnPool) (dials : Nat → Option Conn)
    (h : pool.size ≤ pool.conns.length) :
    fill pool dials = ⟨pool, 0, false⟩ := by
  by_cases hor : (pool.closed || pool.filling) = true
  · simp [fill, hor]
  · simp [fill, hor, h]

lemma fill_empty_fail (pool : HostConnPool) (dials : Nat → Option Conn)
    (hc : pool.closed = false) (hf : pool.filling = false)
    (h0 : pool.conns = []) (hs : 0 < pool.size) (hd : dials 0 = none) :
    fill pool dials = ⟨pool, 1, true⟩ := by
  have hns : ¬ pool.size ≤ 0 := by omega
  obtain ⟨sz, cs, cl, fl, pc⟩ := pool
  simp_all [fill, connect, fillingStopped]

lemma fill_empty_succ (pool : HostConnPool) (dials : Nat → Option Conn)
    (c : Conn) (hc : pool.closed = false) (hf : pool.filling = false)
    (h0 : pool.conns = []) (hs : 0 < pool.size) (hd : dials 0 = some c) :
    fill pool dials =
      ⟨fillingStopped
        (connectMany
          { pool with filling := true, conns := [c], policyConns := some [c] }
          dials 1 (pool.size - 1)),
        1 + (pool.size - 1), false⟩ := by
  have hns : ¬ pool.size ≤ 0 := by omega
  obtain ⟨sz, cs, cl, fl, pc⟩ := pool
  simp_all [fill, connect]

lemma fill_nonempty (pool : HostConnPool) (dials : Nat → Option Conn)
    (hc : pool.closed = false) (hf : pool.filling = false)
    (h0 : pool.conns ≠ []) (hlt : pool.conns.length < pool.size) :
    fill pool dials =
      ⟨fillingStopped
        (connectMany { pool with filling := true } dials 0
          (pool.size - pool.conns.length)),
        pool.size - pool.conns.length, false⟩ := by
  have hns : ¬ pool.size ≤ pool.conns.length := Nat.not_le.mpr hlt
  have hlen : ¬ pool.conns.length = 0 := by
    simpa [List.length_eq_zero] using h0
  obtain ⟨sz, cs, cl, fl, pc⟩ := pool
  simp_all [fill]

lemma fill_size (pool : HostConnPool) (dials : Nat → Option Conn) :
    (fill pool dials).pool.size = pool.size := by
  cases hcl : pool.closed with
  | true => rw [fill_of_closed pool dials hcl]
  | false =>
  cases hfl : pool.filling with
  | true => rw [fill_of_guard pool dials (Or.inr hfl)]
  | false =>
  by_cases h2 : pool.size ≤ pool.conns.length
  · rw [fill_of_full pool dials h2]
  · have hlt : pool.conns.length < pool.size := Nat.not_le.mp h2
    by_cases h3 : pool.conns = []
    · have hs : 0 < pool.size := by
        rw [h3] at hlt; simpa using hlt
      rcases hd : dials 0 with _ | c
      · rw [fill_empty_fail pool dials hcl hfl h3 hs hd]
      · rw [fill_empty_succ pool dials c hcl hfl h3 hs hd]
        simp [fillingStopped, connectMany_size]
    · rw [fill_nonempty pool dials hcl hfl h3 hlt]
      simp [fillingStopped, connectMany_size]

lemma fill_length_le (pool : HostConnPool) (dials : Nat → Option Conn)
    (h : pool.conns.length ≤ pool.size) :
    (fill pool dials).pool.conns.length ≤ pool.size := by
  cases hcl : pool.closed with
  | true => rw [fill_of_closed pool dials hcl]; exact h
  | false =>
  cases hfl : pool.filling with
  | true => rw [fill_of_guard pool dials (Or.inr hfl)]; exact h
  | false =>
  by_cases h2 : pool.size ≤ pool.conns.length
  · rw [fill_of_full pool dials h2]; exact h
  · have hlt : pool.conns.length < pool.size := Nat.not_le.mp h2
    by_cases h3 : pool.conns = []
    · have hs : 0 < pool.size := by
        rw [h3] at hlt; simpa using hlt
      rcases hd : dials 0 with _ | c
      · rw [fill_empty_fail pool dials hcl hfl h3 hs hd]
        simp [h3]
      · rw [fill_empty_succ pool dials c hcl hfl h3 hs hd]
        have hcm := connectMany_length_le dials (pool.size - 1)
          { pool with filling := true, conns := [c], policyConns := some [c] } 1
        simp only [fillingStopped] at hcm ⊢
        simp only [List.length_cons, List.length_nil] at hcm
        omega
    · rw [fill_nonempty pool dials hcl hfl h3 hlt]
      have hcm := connectMany_length_le dials (pool.size - pool.conns.length)
        { pool with filling := true } 0
      simp only [fillingStopped] at hcm ⊢
      omega

lemma swapRemoveAt_length (l : List Conn) (i : Nat) :
    (swapRemoveAt l i).length = l.length - 1 := by
  simp [swapRemoveAt]

lemma findConnIdx_of_mem {l : List Conn} {c : Conn} (h : c ∈ l) :
    ∃ i pre post, findConnIdx l c = some i ∧ l = pre ++ c :: post ∧
      i = pre.length ∧ c ∉ pre := by
  induction l with
  | nil => cases h
  | cons a t ih =>
    by_cases hac : a = c
    · subst hac
      exact ⟨0, [], t, by simp [findConnIdx], rfl, rfl, by simp⟩
    · have hmem : c ∈ t := by
        rcases List.mem_cons.mp h with h1 | h1
        · exact absurd h1.symm hac
        · exact h1
      obtain ⟨i, pre, post, hfind, heq, hlen, hnot⟩ := ih hmem
      refine ⟨i + 1, a :: pre, post, ?_, ?_, ?_, ?_⟩
      · have hbeq : (a == c) = false := by
          simpa using hac
        simp [findConnIdx, hbeq, hfind]
      · simp [heq]
      · simp [hlen]
      · intro hmemc
        rcases List.mem_cons.mp hmemc with h1 | h1
        · exact hac h1.symm
        · exact hnot h1

lemma findConnIdx_of_not_mem {l : List Conn} {c : Conn} (h : c ∉ l) :
    findConnIdx l c = none := by
  induction l with
  | nil => rfl
  | cons a t ih =>
    have hac : (a == c) = false := by
      simp only [beq_eq_false_iff_ne, ne_eq]
      intro hx
      exact h (hx ▸ List.mem_cons_self a t)
    have hct : c ∉ t := fun hm => h (List.mem_cons_of_mem a hm)
    simp [findConnIdx, hac, ih hct]

lemma set_at_length_append (pre : List Conn) (c v : Conn) (post : List Conn) :
    (pre ++ c :: post).set pre.length v = pre ++ v :: post := by
  induction pre with
  | nil => simp
  | cons a t ih => simp [List.set, ih]

lemma swapRemoveAt_perm (pre post : List Conn) (c : Conn) :
    (swapRemoveAt (pre ++ c :: post) pre.length).Perm (pre ++ post) := by
  rcases List.eq_nil_or_concat post with h | ⟨ps, b, h⟩
  · subst h
    have hlast : (pre ++ [c]).getLast? = some c := by
      simp [List.getLast?_concat]
    rw [swapRemoveAt, hlast]
    simp only [Option.getD_some]
    rw [set_at_length_append, List.dropLast_concat]
    simp
  · subst h
    simp only [List.concat_eq_append]
    have hassoc : pre ++ c :: (ps ++ [b]) = (pre ++ c :: ps) ++ [b] := by
      simp
    have hlast : (pre ++ c :: (ps ++ [b])).getLast? = some b := by
      rw [hassoc, List.getLast?_concat]
    rw [swapRemoveAt, hlast]
    simp only [Option.getD_some]
    rw [set_at_length_append]
    have hassoc2 : pre ++ b :: (ps ++ [b]) = (pre ++ b :: ps) ++ [b] := by
      simp
    rw [hassoc2, List.dropLast_concat]
    have hbp : (b :: ps).Perm (ps ++ [b]) := by
      have := @List.perm_append_comm _ ps [b]
      simpa using this.symm
    exact List.Perm.append_left pre hbp

lemma swapRemoveAt_not_mem (pre post : List Conn) (c : Conn)
    (hpre : c ∉ pre) (hpost : c ∉ post) :
    c ∉ swapRemoveAt (pre ++ c :: post) pre.length := by
  intro hmem
  have hperm := swapRemoveAt_perm pre post c
  have : c ∈ pre ++ post := hperm.mem_iff.mp hmem
  rcases List.mem_append.mp this with h | h
  · exact hpre h
  · exact hpost h

lemma handleError_of_closed (pool : HostConnPool) (c : Conn) (b : Bool)
    (h : pool.closed = true) : pool.HandleError c b = (pool, false) := by
  cases b with
  | false => rfl
  | true => simp [HostConnPool.HandleError, h]

lemma handleError_eq_of_found (pool : HostConnPool) (c : Conn) (i : Nat)
    (hc : pool.closed = false) (hfind : findConnIdx pool.conns c = some i) :
    pool.HandleError c true =
      ({ pool with
          conns := swapRemoveAt pool.conns i,
          policyConns := some (swapRemoveAt pool.conns i) }, true) := by
  simp [HostConnPool.HandleError, hc, hfind]

lemma handleError_eq_of_not_mem (pool : HostConnPool) (c : Conn)
    (hc : pool.closed = false) (hmem : c ∉ pool.conns) :
    pool.HandleError c true = (pool, false) := by
  simp [HostConnPool.HandleError, hc, findConnIdx_of_not_mem hmem]

lemma handleError_length_le (pool : HostConnPool) (c : Conn) (b : Bool)
    (h : pool.conns.length ≤ pool.size) :
    (pool.HandleError c b).1.conns.length ≤ pool.size := by
  cases b with
  | false => simpa [HostConnPool.HandleError] using h
  | true =>
    by_cases hc : pool.closed
    · simpa [HostConnPool.HandleError, hc] using h
    · simp only [HostConnPool.HandleError, hc, Bool.not_true,
        Bool.false_eq_true, if_false, ite_false]
      rcases hidx : findConnIdx pool.conns c with _ | i
      · simpa using h
      · simp only []
        rw [swapRemoveAt_length]
        omega

/-
Claim theorems about the hostConnPool level.
-/

/-- C1: the number of live connections of a hostConnPool never exceeds
its fixed target size.  The bound holds at construction and is preserved
by fill, HandleError, Close and drain; connect preserves it under the
precondition of its only call sites inside fill (room left below the
target); Pick reads the pool without mutating it, so it has no conjunct.
Once closed is true, fill, connect and HandleError leave the pool
unchanged, Close is a no-op and drain only empties conns, so no new
connection is ever added to a closed pool. -/
theorem C1_conns_bounded_closed_monotone
    (p : HostConnPool) (sz : Nat) (dials : Nat → Option Conn)
    (d : Option Conn) (c : Conn) (b : Bool) :
    ((newHostConnPool sz dials).pool.conns.length ≤
        (newHostConnPool sz dials).pool.size
      ∧ (newHostConnPool sz dials).pool.size = sz) ∧
    (p.conns.length ≤ p.size →
      (fill p dials).pool.conns.length ≤ (fill p dials).pool.size) ∧
    (p.conns.length < p.size → (connect p d).1.conns.length ≤ p.size) ∧
    (p.conns.length ≤ p.size →
      (p.HandleError c b).1.conns.length ≤ p.size) ∧
    ((p.Close).1.conns = p.conns) ∧
    ((p.drain).1.conns.length ≤ p.size) ∧
    (p.closed = true →
      (fill p dials).pool = p ∧ (connect p d).1 = p ∧
      (p.HandleError c b).1 = p ∧ (p.Close).1 = p ∧ (p.drain).1.conns = []) := by
  refine ⟨⟨?_, ?_⟩, ?_, ?_, ?_, ?_, ?_, ?_⟩
  · have hsz := fill_size
      { size := sz, conns := [], closed := false, filling := false,
        policyConns := none } dials
    have hlen := fill_length_le
      { size := sz, conns := [], closed := false, filling := false,
        policyConns := none } dials (by simp)
    simpa [newHostConnPool, hsz] using hlen
  · exact fill_size
      { size := sz, conns := [], closed := false, filling := false,
        policyConns := none } dials
  · intro h
    rw [fill_size]
    exact fill_length_le p dials h
  · intro h
    have := connect_length_le p d
    omega
  · exact handleError_length_le p c b
  · cases hcl : p.closed <;> simp [HostConnPool.Close, hcl]
  · simp [HostConnPool.drain]
  · intro hcl
    refine ⟨?_, connect_of_closed p d hcl, ?_, ?_, rfl⟩
    · rw [fill_of_closed p dials hcl]
    · rw [handleError_of_closed p c b hcl]
    · simp [HostConnPool.Close, hcl]

/-- Concrete pool used to instantiate the C1 theorem. -/
def poolW1 : HostConnPool :=
  { size := 2, conns := [5], closed := false, filling := false,
    policyConns := some [5] }

/-- C1 witness: the invariant conjuncts with hypotheses, discharged at a
concrete pool of target size 2 holding one connection. -/
theorem C1_conns_bounded_closed_monotone_witness :
    ((fill poolW1 (fun _ => some 9)).pool.conns.length ≤
      (fill poolW1 (fun _ => some 9)).pool.size) ∧
    ((connect poolW1 (some 9)).1.conns.length ≤ poolW1.size) ∧
    ((poolW1.HandleError 5 true).1.conns.length ≤ poolW1.size) :=
  ⟨(C1_conns_bounded_closed_monotone poolW1 2 (fun _ => some 9) (some 9) 5
      true).2.1 (by decide),
   (C1_conns_bounded_closed_monotone poolW1 2 (fun _ => some 9) (some 9) 5
      true).2.2.1 (by decide),
   (C1_conns_bounded_closed_monotone poolW1 2 (fun _ => some 9) (some 9) 5
      true).2.2.2.1 (by decide)⟩

/-- C3: fill on a pool with zero connections (not closed, not filling,
below target size) performs the first dial on the calling context; if
that dial fails it stops after exactly that one attempt, leaves the pool
empty and unterminated, clears filling and signals the asynchronous
markHostDown notification; if the dial yields connection c, fill goes on
to connect the remaining size - 1 connections (size attempts in total),
keeps the pool within its target and does not signal markHostDown. -/
theorem C3_fill_cold_pool (p : HostConnPool) (dials : Nat → Option Conn)
    (c : Conn) (h0 : p.conns = []) (hc : p.closed = false)
    (hf : p.filling = false) (hs : 0 < p.size) :
    (dials 0 = none →
      fill p dials = ⟨p, 1, true⟩ ∧ (fill p dials).pool.conns = [] ∧
      (fill p dials).pool.closed = false ∧
      (fill p dials).pool.filling = false) ∧
    (dials 0 = some c →
      (fill p dials).pool.conns.head? = some c ∧
      (fill p dials).attempts = p.size ∧
      (fill p dials).markHostDown = false ∧
      (fill p dials).pool.conns.length ≤ p.size ∧
      (fill p dials).pool.closed = false ∧
      (fill p dials).pool.filling = false) := by
  constructor
  · intro hd
    have heq := fill_empty_fail p dials hc hf h0 hs hd
    refine ⟨heq, ?_, ?_, ?_⟩ <;> rw [heq] <;> simp [h0, hc, hf]
  · intro hd
    have heq := fill_empty_succ p dials c hc hf h0 hs hd
    obtain ⟨l, hl, hlen⟩ := connectMany_conns_append dials (p.size - 1)
      { p with filling := true, conns := [c], policyConns := some [c] } 1
    refine ⟨?_, ?_, ?_, ?_, ?_, ?_⟩
    · rw [heq]
      simp only [fillingStopped, hl]
      simp
    · rw [heq]
      simp only []
      omega
    · rw [heq]
    · rw [heq]
      simp only [fillingStopped, hl]
      simp only [List.length_append, List.length_cons, List.length_nil] at *
      omega
    · rw [heq]
      simp only [fillingStopped]
      rw [connectMany_closed]
      exact hc
    · rw [heq]
      simp [fillingStopped]

/-- Concrete empty pool used to instantiate the C3 theorem. -/
def poolW3 : HostConnPool :=
  { size := 3, conns := [], closed := false, filling := false,
    policyConns := none }

/-- Dial environment for the C3 witness: the first dial succeeds with
connection 4, the later ones fail. -/
def dialsW3 : Nat → Option Conn :=
  fun n => if n = 0 then some 4 else none

/-- C3 witness: both branches of the theorem instantiated concretely, on
an all-fail environment and on dialsW3. -/
theorem C3_fill_cold_pool_witness :
    fill poolW3 (fun _ => none) = ⟨poolW3, 1, true⟩ ∧
    (fill poolW3 dialsW3).pool.conns.head? = some 4 ∧
    (fill poolW3 dialsW3).attempts = poolW3.size :=
  ⟨((C3_fill_cold_pool poolW3 (fun _ => none) 4 rfl rfl rfl (by decide)).1
      rfl).1,
   ((C3_fill_cold_pool poolW3 dialsW3 4 rfl rfl rfl (by decide)).2 rfl).1,
   ((C3_fill_cold_pool poolW3 dialsW3 4 rfl rfl rfl (by decide)).2 rfl).2.1⟩

/-- C4: HandleError with closed=true on a non-closed pool that holds the
connection exactly once removes it by swap-with-last (the remaining set
is a permutation of the old set with the connection erased), republishes
the copied snapshot of the remaining connections, schedules a background
fill, changes no flag, and a second HandleError call for the same
connection is a no-op. -/
theorem C4_handleError_removes_then_noop (p : HostConnPool) (c : Conn)
    (hc : p.closed = false) (hcount : p.conns.count c = 1) :
    ((p.HandleError c true).1.conns.Perm (p.conns.erase c)) ∧
    c ∉ (p.HandleError c true).1.conns ∧
    (p.HandleError c true).1.policyConns =
      some (p.HandleError c true).1.conns ∧
    (p.HandleError c true).2 = true ∧
    (p.HandleError c true).1.closed = p.closed ∧
    (p.HandleError c true).1.filling = p.filling ∧
    (p.HandleError c true).1.size = p.size ∧
    (p.HandleError c true).1.HandleError c true =
      ((p.HandleError c true).1, false) := by
  have hmem : c ∈ p.conns := by
    have hpos : 0 < p.conns.count c := by omega
    exact List.count_pos_iff.mp hpos
  obtain ⟨i, pre, post, hfind, heq, hleni, hpre⟩ := findConnIdx_of_mem hmem
  have hpost : c ∉ post := by
    rw [heq] at hcount
    have hprecount : pre.count c = 0 := List.count_eq_zero.mpr hpre
    simp only [List.count_append, List.count_cons_self, hprecount] at hcount
    have : post.count c = 0 := by omega
    exact List.count_eq_zero.mp this
  have hH := handleError_eq_of_found p c i hc hfind
  have herase : p.conns.erase c = pre ++ post := by
    rw [heq, List.erase_append_right _ hpre, List.erase_cons_head]
  have hswap : swapRemoveAt p.conns i = swapRemoveAt (pre ++ c :: post) pre.length := by
    rw [heq, hleni]
  have hperm : (swapRemoveAt p.conns i).Perm (p.conns.erase c) := by
    rw [hswap, herase]
    exact swapRemoveAt_perm pre post c
  have hnot : c ∉ swapRemoveAt p.conns i := by
    rw [hswap]
    exact swapRemoveAt_not_mem pre post c hpre hpost
  refine ⟨?_, ?_, ?_, ?_, ?_, ?_, ?_, ?_⟩
  · rw [hH]; exact hperm
  · rw [hH]; exact hnot
  · rw [hH]
  · rw [hH]
  · rw [hH]
  · rw [hH]
  · rw [hH]
  · rw [hH]
    exact handleError_eq_of_not_mem _ c hc hnot

/-- Concrete pool used to instantiate the C4 theorem. -/
def poolW4 : HostConnPool :=
  { size := 3, conns := [1, 2, 3], closed := false, filling := false,
    policyConns := some [1, 2, 3] }

/-- C4 witness: the removal and second-call no-op conjuncts at a
concrete three-connection pool, removing connection 1. -/
theorem C4_handleError_removes_then_noop_witness :
    ((poolW4.HandleError 1 true).1.conns.Perm (poolW4.conns.erase 1)) ∧
    (1 : Conn) ∉ (poolW4.HandleError 1 true).1.conns ∧
    (poolW4.HandleError 1 true).2 = true ∧
    (poolW4.HandleError 1 true).1.HandleError 1 true =
      ((poolW4.HandleError 1 true).1, false) :=
  ⟨(C4_handleError_removes_then_noop poolW4 1 rfl (by decide)).1,
   (C4_handleError_removes_then_noop poolW4 1 rfl (by decide)).2.1,
   (C4_handleError_removes_then_noop poolW4 1 rfl (by decide)).2.2.2.1,
   (C4_handleError_removes_then_noop poolW4 1 rfl (by decide)).2.2.2.2.2.2.2⟩

/-- C5: drain detaches the whole connection collection (the pool holds
zero connections afterwards), publishes the empty (nil) snapshot to the
ConnSelectionPolicy, and the connections that get closed are exactly the
detached ones; no other field changes. -/
theorem C5_drain_detaches_all (p : HostConnPool) :
    (p.drain).1.conns = [] ∧ (p.drain).1.policyConns = none ∧
    (p.drain).2 = p.conns ∧ (p.drain).1.closed = p.closed ∧
    (p.drain).1.size = p.size ∧ (p.drain).1.filling = p.filling :=
  ⟨rfl, rfl, rfl, rfl, rfl, rfl⟩

/-- Pool exhibiting the C8 counterexample: target size 0, empty, not
closed. -/
def poolC8 : HostConnPool :=
  { size := 0, conns := [], closed := false, filling := false,
    policyConns := none }

/-- C8 counterexample: a hostConnPool with target size 0 is not closed
and holds zero connections, yet Pick neither returns nil nor triggers a
fill: the zero-count early return is guarded by count < size, so the
call falls through to the ConnSelectionPolicy (here returning 7). -/
theorem C8_counterexample :
    poolC8.closed = false ∧ poolC8.conns.length = 0 ∧
    poolC8.Pick (some 7) = (some 7, false) := by
  decide

/-- C8 as amended: on a non-closed pool with zero connections and a
positive target size, Pick returns nil without consulting the
ConnSelectionPolicy and triggers a background fill; on a closed pool,
Pick returns nil and triggers no fill. -/
theorem C8_pick_empty_or_closed (pool : HostConnPool) (r : Option Conn) :
    (pool.closed = false → pool.conns = [] → 0 < pool.size →
      pool.Pick r = (none, true)) ∧
    (pool.closed = true → pool.Pick r = (none, false)) := by
  constructor
  · intro hc h0 hs
    simp [HostConnPool.Pick, hc, h0, hs]
  · intro hc
    simp [HostConnPool.Pick, hc]

/-- Concrete empty pool used to instantiate the C8 theorem. -/
def poolW8a : HostConnPool :=
  { size := 2, conns := [], closed := false, filling := false,
    policyConns := none }

/-- Concrete closed pool used to instantiate the C8 theorem. -/
def poolW8b : HostConnPool :=
  { size := 2, conns := [3], closed := true, filling := false,
    policyConns := some [3] }

/-- C8 witness: both amended branches at concrete pools. -/
theorem C8_pick_empty_or_closed_witness :
    poolW8a.Pick (some 5) = (none, true) ∧
    poolW8b.Pick (some 5) = (none, false) :=
  ⟨(C8_pick_empty_or_closed poolW8a (some 5)).1 rfl rfl (by decide),
   (C8_pick_empty_or_closed poolW8b (some 5)).2 rfl⟩

/-- C9: Close is idempotent.  The first Close sets the terminal closed
flag, schedules drain asynchronously and does not itself touch the
connections (callers do not wait for them to close); Close on an
already-closed pool is a no-op that schedules no second drain. -/
theorem C9_close_idempotent (p : HostConnPool) :
    (p.Close).1.closed = true ∧ (p.Close).1.conns = p.conns ∧
    (p.Close).1.policyConns = p.policyConns ∧
    (p.closed = false → (p.Close).2 = true) ∧
    (p.closed = true → p.Close = (p, false)) ∧
    (p.Close).1.Close = ((p.Close).1, false) := by
  cases hcl : p.closed <;> simp [HostConnPool.Close, hcl]

/-- Concrete open pool used to instantiate the C9 theorem. -/
def poolW9 : HostConnPool :=
  { size := 2, conns := [1, 2], closed := false, filling := false,
    policyConns := some [1, 2] }

/-- C9 witness: the first Close on a concrete open pool schedules drain
and the second Close is a no-op scheduling none. -/
theorem C9_close_idempotent_witness :
    (poolW9.Close).2 = true ∧
    (poolW9.Close).1.Close = ((poolW9.Close).1, false) :=
  ⟨(C9_close_idempotent poolW9).2.2.2.1 rfl,
   (C9_close_idempotent poolW9).2.2.2.2.2⟩

/-- C10: on a pool whose closed flag is set, HandleError with
closed=true returns with the state untouched (connection set and policy
snapshot included) and schedules no fill, whatever the reported
connection is — including one still present in conns. -/
theorem C10_handleError_on_closed_pool (p : HostConnPool) (c : Conn)
    (h : p.closed = true) : p.HandleError c true = (p, false) :=
  handleError_of_closed p c true h

/-- Concrete closed pool, still holding connection 3, used to
instantiate the C10 theorem. -/
def poolW10 : HostConnPool :=
  { size := 2, conns := [3], closed := true, filling := false,
    policyConns := some [3] }

/-- C10 witness: the closed-pool no-op at a concrete pool whose conns
still contain the reported connection. -/
theorem C10_handleError_on_closed_pool_witness :
    poolW10.HandleError 3 true = (poolW10, false) ∧ 3 ∈ poolW10.conns :=
  ⟨C10_handleError_on_closed_pool poolW10 3 rfl, by decide⟩

/-
Helper lemmas about the address map of the policyConnPool level.
-/

lemma mapLookup_mapErase (m : List (String × HostConnPool)) (a b : String) :
    mapLookup (mapErase m b) a = if a = b then none else mapLookup m a := by
  induction m with
  | nil => by_cases hab : a = b <;> simp [mapErase, mapLookup, hab]
  | cons e t ih =>
    by_cases heb : e.1 = b
    · rw [mapErase, if_pos (by simp [heb]), ih]
      by_cases hab : a = b
      · simp [hab]
      · have hea : (e.1 == a) = false := by
          simp only [beq_eq_false_iff_ne, ne_eq]
          intro hx
          exact hab (hx ▸ heb)
        simp [hab, mapLookup, hea]
    · rw [mapErase, if_neg (by simp [heb])]
      by_cases hea : e.1 = a
      · have hab : ¬ a = b := fun hx => heb (hea.symm ▸ hx)
        simp [mapLookup, hea, hab]
      · have hea2 : (e.1 == a) = false := by simp [hea]
        simp [mapLookup, hea2, ih]

lemma mapLookup_mapSet (m : List (String × HostConnPool)) (a b : String)
    (pool : HostConnPool) :
    mapLookup (mapSet m b pool) a = if a = b then some pool else mapLookup m a := by
  by_cases hab : a = b
  · simp [mapSet, mapLookup, hab]
  · have hba : (b == a) = false := by
      simp only [beq_eq_false_iff_ne, ne_eq]
      exact fun hx => hab hx.symm
    simp [mapSet, mapLookup, hba, mapLookup_mapErase, hab]

lemma mapLookup_eraseFold (addrs : List String)
    (m : List (String × HostConnPool)) (a : String) :
    mapLookup (addrs.foldl mapErase m) a =
      if a ∈ addrs then none else mapLookup m a := by
  induction addrs generalizing m with
  | nil => simp
  | cons b t ih =>
    simp only [List.foldl_cons]
    rw [ih]
    by_cases hat : a ∈ t
    · simp [hat]
    · by_cases hab : a = b
      · simp [hat, hab, mapLookup_mapErase]
      · simp [hat, hab, mapLookup_mapErase, List.mem_cons]

lemma mapLookup_regFold (created : List (String × HostConnPool))
    (m : List (String × HostConnPool)) (a : String) (pool' : HostConnPool)
    (h : mapLookup (created.foldl registerPool m) a = some pool') :
    mapLookup m a = some pool' ∨
      ((a, pool') ∈ created ∧ 0 < pool'.conns.length) := by
  induction created generalizing m with
  | nil => exact Or.inl h
  | cons e t ih =>
    simp only [List.foldl_cons] at h
    rcases ih (registerPool m e) h with h1 | h1
    · by_cases hpos : 0 < e.2.conns.length
      · rw [registerPool, if_pos hpos, mapLookup_mapSet] at h1
        by_cases hae : a = e.1
        · rw [if_pos hae] at h1
          refine Or.inr ⟨?_, ?_⟩
          · have : (a, pool') = e := by
              obtain ⟨e1, e2⟩ := e
              simp only at hae h1
              obtain rfl := hae
              obtain rfl := Option.some_inj.mp h1
              rfl
            rw [this]
            exact List.mem_cons_self e t
          · obtain rfl := Option.some_inj.mp h1
            exact hpos
        · rw [if_neg hae] at h1
          exact Or.inl h1
      · rw [registerPool, if_neg hpos] at h1
        exact Or.inl h1
    · exact Or.inr ⟨List.mem_cons_of_mem e h1.1, h1.2⟩

lemma mapLookup_mem_keys (m : List (String × HostConnPool)) (a : String)
    (pool : HostConnPool) (h : mapLookup m a = some pool) :
    a ∈ m.map Prod.fst := by
  induction m with
  | nil => simp [mapLookup] at h
  | cons e t ih =>
    rw [mapLookup] at h
    by_cases hea : e.1 = a
    · simp [hea]
    · have hea2 : (e.1 == a) = false := by simp [hea]
      rw [hea2] at h
      simp only [Bool.false_eq_true, if_false] at h
      simp [ih h]

lemma setHosts_closedAddrs (p : PolicyConnPool) (hosts : List HostInfo)
    (dials : String → Nat → Option Conn) :
    (p.SetHosts hosts dials).closedAddrs =
      (p.hostConnPools.map Prod.fst).filter
        (fun a => !(hosts.any (fun h => h.up && h.peer == a))) := rfl

lemma setHosts_result_lookup (p : PolicyConnPool) (hosts : List HostInfo)
    (dials : String → Nat → Option Conn) (a : String) :
    mapLookup (p.SetHosts hosts dials).pool.hostConnPools a =
      if a ∈ (p.SetHosts hosts dials).closedAddrs then none
      else
        mapLookup
          (((hosts.filter
              (fun h => h.up && (mapLookup p.hostConnPools h.peer).isNone)).map
            (fun h => (h.peer, (newHostConnPool p.numConns (dials h.peer)).pool))).foldl
              registerPool p.hostConnPools) a := by
  simp only [PolicyConnPool.SetHosts]
  rw [mapLookup_eraseFold]

lemma setHosts_lookup_old_or_nonempty (p : PolicyConnPool)
    (hosts : List HostInfo) (dials : String → Nat → Option Conn) (a : String)
    (pool' : HostConnPool)
    (h : mapLookup (p.SetHosts hosts dials).pool.hostConnPools a = some pool') :
    mapLookup p.hostConnPools a = some pool' ∨ pool'.conns ≠ [] := by
  rw [setHosts_result_lookup] at h
  by_cases hmem : a ∈ (p.SetHosts hosts dials).closedAddrs
  · rw [if_pos hmem] at h
    cases h
  · rw [if_neg hmem] at h
    rcases mapLookup_regFold _ _ _ _ h with h1 | h1
    · exact Or.inl h1
    · exact Or.inr (List.ne_nil_of_length_pos h1.2)

lemma addHost_registers (p : PolicyConnPool) (h : HostInfo)
    (d : Nat → Option Conn) (hnone : mapLookup p.hostConnPools h.peer = none) :
    mapLookup (p.addHost h d).pool.hostConnPools h.peer =
      some (newHostConnPool p.numConns d).pool := by
  simp only [PolicyConnPool.addHost, hnone]
  rw [mapLookup_mapSet]
  simp

/-
Claim theorems about the policyConnPool level.
-/

/-- Initial policyConnPool exhibiting the C2 counterexample. -/
def poolC2 : PolicyConnPool :=
  { port := 9042, numConns := 1, hostConnPools := [], policyHosts := [] }

/-- Unreachable up host used in the C2 counterexample. -/
def hostC2 : HostInfo := { peer := "h1", port := 9042, up := true }

/-- C2 counterexample: addHost on an untracked, up, unreachable host
(every dial fails) registers the newly created pool unconditionally, so
the reachable state (addHost poolC2 hostC2) has a map entry whose
hostConnPool holds zero connections, contradicting the claimed
invariant. -/
theorem C2_counterexample :
    Option.map HostConnPool.conns
      (mapLookup (poolC2.addHost hostC2 (fun _ => none)).pool.hostConnPools
        hostC2.peer) = some [] := by
  decide

/-- C2 as amended: SetHosts registers only pools holding at least one
connection (every map entry after SetHosts is either a previously
tracked pool or has a non-empty connection set), but addHost — and
hostUp, which delegates to addHost — registers a newly created pool
unconditionally, zero connections included, so the zero-connection-free
invariant holds for SetHosts registrations only. -/
theorem C2_registration_filtering (p : PolicyConnPool) (hosts : List HostInfo)
    (dials : String → Nat → Option Conn) (a : String) (pool' : HostConnPool)
    (h : HostInfo) (d : Nat → Option Conn) :
    (mapLookup (p.SetHosts hosts dials).pool.hostConnPools a = some pool' →
      mapLookup p.hostConnPools a = some pool' ∨ pool'.conns ≠ []) ∧
    (mapLookup p.hostConnPools h.peer = none →
      mapLookup (p.addHost h d).pool.hostConnPools h.peer =
        some (newHostConnPool p.numConns d).pool) ∧
    p.hostUp h d = p.addHost h d :=
  ⟨setHosts_lookup_old_or_nonempty p hosts dials a pool',
   addHost_registers p h d, rfl⟩

/-- Placeholder pool used to instantiate universally quantified pool
arguments in witnesses. -/
def dummyPool : HostConnPool :=
  { size := 0, conns := [], closed := false, filling := false,
    policyConns := none }

/-- C2 witness: the unconditional addHost registration at the concrete
counterexample input. -/
theorem C2_registration_filtering_witness :
    mapLookup (poolC2.addHost hostC2 (fun _ => none)).pool.hostConnPools
        hostC2.peer =
      some (newHostConnPool poolC2.numConns (fun _ => none)).pool :=
  (C2_registration_filtering poolC2 [] (fun _ _ => none) hostC2.peer dummyPool
    hostC2 (fun _ => none)).2.1 rfl

/-- C6: SetHosts does not register a newly created pool that ended up
with zero connections; every tracked address carried by no up host of
the new list is evicted and its pool closed; and in the concrete
scenario SetHosts [A, B] on an empty pool with A reachable and B not,
the resulting map holds exactly A's pool, Size equals A's connection
count, and B is absent. -/
theorem C6_sethosts_reconciliation (p : PolicyConnPool)
    (hosts : List HostInfo) (dials : String → Nat → Option Conn) (a : String)
    (pool0 : HostConnPool) (A B : HostInfo) (c : Conn) :
    (mapLookup p.hostConnPools a = none →
      (newHostConnPool p.numConns (dials a)).pool.conns = [] →
      mapLookup (p.SetHosts hosts dials).pool.hostConnPools a = none) ∧
    (mapLookup p.hostConnPools a = some pool0 →
      (∀ h ∈ hosts, h.up = true → h.peer ≠ a) →
      mapLookup (p.SetHosts hosts dials).pool.hostConnPools a = none ∧
      a ∈ (p.SetHosts hosts dials).closedAddrs) ∧
    (p.hostConnPools = [] → A.up = true → B.up = true → A.peer ≠ B.peer →
      dials A.peer 0 = some c → (∀ n, dials B.peer n = none) →
      0 < p.numConns →
      (p.SetHosts [A, B] dials).pool.hostConnPools =
        [(A.peer, (newHostConnPool p.numConns (dials A.peer)).pool)] ∧
      (p.SetHosts [A, B] dials).pool.Size =
        (newHostConnPool p.numConns (dials A.peer)).pool.Size ∧
      mapLookup (p.SetHosts [A, B] dials).pool.hostConnPools B.peer = none) := by
  refine ⟨?_, ?_, ?_⟩
  · intro hnone hempty
    cases hres : mapLookup (p.SetHosts hosts dials).pool.hostConnPools a with
    | none => rfl
    | some pool' =>
      exfalso
      rw [setHosts_result_lookup] at hres
      by_cases hmem : a ∈ (p.SetHosts hosts dials).closedAddrs
      · rw [if_pos hmem] at hres
        cases hres
      · rw [if_neg hmem] at hres
        rcases mapLookup_regFold _ _ _ _ hres with h1 | h1
        · rw [hnone] at h1
          cases h1
        · obtain ⟨hmemc, hpos⟩ := h1
          obtain ⟨h0, _, heq⟩ := List.mem_map.mp hmemc
          obtain ⟨hpeer, hpool⟩ := Prod.mk.injEq .. ▸ heq
          rw [← hpool, hpeer, hempty] at hpos
          simp at hpos
  · intro hsome hnotup
    have hany : (hosts.any (fun h => h.up && h.peer == a)) = false := by
      rw [List.any_eq_false]
      intro h hmem
      cases hup : h.up with
      | false => simp [hup]
      | true =>
        have := hnotup h hmem hup
        simp [hup, this]
    have hkey : a ∈ p.hostConnPools.map Prod.fst :=
      mapLookup_mem_keys p.hostConnPools a pool0 hsome
    have hclosed : a ∈ (p.SetHosts hosts dials).closedAddrs := by
      rw [setHosts_closedAddrs]
      rw [List.mem_filter]
      exact ⟨hkey, by simp [hany]⟩
    refine ⟨?_, hclosed⟩
    rw [setHosts_result_lookup, if_pos hclosed]
  · intro hmap hAup hBup hAB hA hB hnum
    have hpB : (newHostConnPool p.numConns (dials B.peer)).pool.conns = [] := by
      rw [newHostConnPool, fill_empty_fail _ _ rfl rfl rfl hnum (hB 0)]
    have hpA : 0 < (newHostConnPool p.numConns (dials A.peer)).pool.conns.length := by
      rw [newHostConnPool, fill_empty_succ _ _ c rfl rfl rfl hnum hA]
      obtain ⟨l, hl, _⟩ := connectMany_conns_append (dials A.peer)
        (p.numConns - 1)
        { size := p.numConns, conns := [c], closed := false, filling := true,
          policyConns := some [c] } 1
      simp only [fillingStopped, hl]
      simp
    have hmain : (p.SetHosts [A, B] dials).pool.hostConnPools =
        [(A.peer, (newHostConnPool p.numConns (dials A.peer)).pool)] := by
      simp only [PolicyConnPool.SetHosts, hmap, List.map_nil, List.filter_nil,
        List.foldl_nil, List.filter_cons, hAup, hBup, mapLookup,
        Option.isNone_none, Bool.and_self, Bool.true_and, if_true,
        List.map_cons, List.foldl_cons]
      simp only [registerPool]
      simp [hpA, hpB, mapSet, mapErase]
    refine ⟨hmain, ?_, ?_⟩
    · show ((p.SetHosts [A, B] dials).pool.hostConnPools.map
        (fun e => e.2.Size)).sum = _
      rw [hmain]
      simp [HostConnPool.Size]
    · rw [hmain, mapLookup]
      have : (A.peer == B.peer) = false := by simp [hAB]
      simp [this, mapLookup]

/-- Policy pool with one tracked entry, used to instantiate the C6
theorem's eviction conjunct. -/
def poolW6 : PolicyConnPool :=
  { port := 9042, numConns := 2, hostConnPools := [],
    policyHosts := [] }

/-- Reachable host A for the C6 scenario witness. -/
def hostW6A : HostInfo := { peer := "a", port := 9042, up := true }

/-- Unreachable host B for the C6 scenario witness. -/
def hostW6B : HostInfo := { peer := "b", port := 9042, up := true }

/-- Dial environment for the C6 scenario witness: host a dials
connection 11 successfully on every attempt, host b always fails. -/
def dialsW6 : String → Nat → Option Conn :=
  fun a _ => if a = hostW6A.peer then some 11 else none

/-- C6 witness: the scenario conjunct at concrete hosts a (reachable)
and b (unreachable) on an empty policy pool. -/
theorem C6_sethosts_reconciliation_witness :
    (poolW6.SetHosts [hostW6A, hostW6B] dialsW6).pool.hostConnPools =
      [(hostW6A.peer, (newHostConnPool poolW6.numConns (dialsW6 hostW6A.peer)).pool)] ∧
    mapLookup (poolW6.SetHosts [hostW6A, hostW6B] dialsW6).pool.hostConnPools
      hostW6B.peer = none :=
  ⟨((C6_sethosts_reconciliation poolW6 [hostW6A, hostW6B] dialsW6
      hostW6A.peer dummyPool hostW6A hostW6B 11).2.2 rfl rfl rfl (by decide)
      (by decide) (fun _ => rfl) (by decide)).1,
   ((C6_sethosts_reconciliation poolW6 [hostW6A, hostW6B] dialsW6
      hostW6A.peer dummyPool hostW6A hostW6B 11).2.2 rfl rfl rfl (by decide)
      (by decide) (fun _ => rfl) (by decide)).2.2⟩

/-- C7: policyConnPool.Pick tries the hosts exactly in iterator order,
skipping hosts with no tracked pool and hosts whose pool yields no
connection, stops at the first host yielding a non-nil connection, and
returns (nil, nil) on exhaustion; the precondition that every yielded
host carries Info rules out the panic branch. -/
theorem C7_pick_iterates_in_order (p : PolicyConnPool)
    (connPick : String → Option Conn) (iter : List SelectedHost)
    (hinfo : ∀ h ∈ iter, h.info.isSome = true) :
    PolicyConnPool.Pick p connPick iter = some (pickFirstSpec p connPick iter) := by
  induction iter with
  | nil => rfl
  | cons h rest ih =>
    have hh := hinfo h (List.mem_cons_self h rest)
    obtain ⟨info, hinfoeq⟩ := Option.isSome_iff_exists.mp hh
    have hrest : ∀ x ∈ rest, x.info.isSome = true :=
      fun x hx => hinfo x (List.mem_cons_of_mem h hx)
    cases hlook : mapLookup p.hostConnPools info.peer with
    | none =>
      have hyield : hostYield p connPick h = none := by
        simp [hostYield, hinfoeq, hlook]
      simp only [PolicyConnPool.Pick, hinfoeq, hlook]
      rw [pickFirstSpec, List.find?_cons_of_neg _ (by simp [hyield])]
      rw [ih hrest, pickFirstSpec]
    | some pool =>
      cases hpk : (pool.Pick (connPick info.peer)).1 with
      | none =>
        have hyield : hostYield p connPick h = none := by
          simp [hostYield, hinfoeq, hlook, hpk]
        simp only [PolicyConnPool.Pick, hinfoeq, hlook, hpk]
        rw [pickFirstSpec, List.find?_cons_of_neg _ (by simp [hyield])]
        rw [ih hrest, pickFirstSpec]
      | some conn =>
        have hyield : hostYield p connPick h = some conn := by
          simp [hostYield, hinfoeq, hlook, hpk]
        simp only [PolicyConnPool.Pick, hinfoeq, hlook, hpk]
        rw [pickFirstSpec, List.find?_cons_of_pos _ (by simp [hyield])]
        simp only [hyield]

/-- Host pool tracked by the C7 witness policy pool. -/
def poolW7host : HostConnPool :=
  { size := 1, conns := [3], closed := false, filling := false,
    policyConns := some [3] }

/-- Policy pool for the C7 witness, tracking one host. -/
def poolW7 : PolicyConnPool :=
  { port := 1, numConns := 1, hostConnPools := [("x", poolW7host)],
    policyHosts := [] }

/-- The single host yielded by the C7 witness iterator. -/
def hostW7 : HostInfo := { peer := "x", port := 1, up := true }

/-- Iterator for the C7 witness. -/
def iterW7 : List SelectedHost := [{ info := some hostW7 }]

/-- C7 witness: Pick on the concrete one-host iterator returns that host
with connection 3, as computed by the first-yield specification. -/
theorem C7_pick_iterates_in_order_witness :
    PolicyConnPool.Pick poolW7 (fun _ => some 3) iterW7 =
      some (some { info := some hostW7 }, some 3) :=
  (C7_pick_iterates_in_order poolW7 (fun _ => some 3) iterW7
    (by decide)).trans (by decide)

end Gocql
